import Mathlib

/-!
# Verification of the incremental stock/news ingestion and alignment logic

Shallow embedding of `src/stock_data_ingestion.py` (class `InfluxDBHandler`).

Modelling conventions:
* Timestamps and dates are integers (UTC instants / epoch days); the store's
  `range(start, stop)` filter is start-inclusive, stop-exclusive, as in Flux.
* Effectful collaborators (the InfluxDB query/write APIs, yfinance, Finnhub)
  are modelled as oracle functions in an `Env` record.  The existence-check
  query is given exactly the store points matching the query's measurement,
  symbol and range filters (the query string in `_check_data_exists` contains
  those three filters), but is otherwise an arbitrary function, so a failing
  or lying store is representable.
* Python exceptions raised by a collaborator are `Except.error ()` results of
  the oracle; a `try/except` block in the source corresponds to matching on
  that result.  An exception that no `try/except` catches makes the embedded
  function itself return `Except.error ()`.
* The store is the list of points written so far; a successful batch write
  appends them, a failing write persists nothing.
* Provider calls and writes are recorded in an event trace; `time.sleep(1)`
  is the only operation that advances time (`Ev.sleep`), which models the
  fact that the code enforces no other delay.
-/

namespace StockIngest

/-- Equality of embedded fallible results is decidable (used to evaluate
the model on concrete inputs). -/
instance {ε α : Type} [DecidableEq ε] [DecidableEq α] :
    DecidableEq (Except ε α) := fun x y =>
  match x, y with
  | .error a, .error b =>
    if h : a = b then isTrue (h ▸ rfl) else isFalse fun he => h (Except.error.inj he)
  | .ok a, .ok b =>
    if h : a = b then isTrue (h ▸ rfl) else isFalse fun he => h (Except.ok.inj he)
  | .error _, .ok _ => isFalse fun he => Except.noConfusion he
  | .ok _, .error _ => isFalse fun he => Except.noConfusion he

/-- A field value of an InfluxDB point (numeric or string). -/
inductive FieldVal
  | num (x : Int)
  | str (s : String)
deriving DecidableEq

/-- An InfluxDB point as built by `_ingest_stock_data` / `_ingest_news_data`:
measurement name, `symbol` tag, timestamp, and fields. -/
structure Point where
  measurement : String
  symbol : String
  time : Int
  fields : List (String × FieldVal)
deriving DecidableEq

/-- One OHLCV row of the `yf.download` result (values as carried integers;
the claims never compute with the numeric field values). -/
structure Bar where
  ts : Int
  open_ : Int
  high : Int
  low : Int
  close : Int
  volume : Int
  adjClose : Option Int
deriving DecidableEq

/-- One news item of the Finnhub `company_news` result. -/
structure NewsItem where
  datetime : Int
  headline : String
  summary : String
  source : String
  url : String
  id : Int
  category : Option String
deriving DecidableEq

/-- The point built from a bar in `_ingest_stock_data` (measurement
`"stock_data"`, `symbol` tag, bar timestamp, OHLCV fields, optional
`adj_close`). -/
def barToPoint (symbol : String) (b : Bar) : Point :=
  { measurement := "stock_data"
    symbol := symbol
    time := b.ts
    fields :=
      [("open", .num b.open_), ("high", .num b.high), ("low", .num b.low),
       ("close", .num b.close), ("volume", .num b.volume)] ++
      (match b.adjClose with
       | some v => [("adj_close", .num v)]
       | none => []) }

/-- The point built from a news item in `_ingest_news_data` (measurement
`"market_news"`, `symbol` tag, item timestamp, text fields, id, category
defaulting to `"N/A"`). -/
def newsToPoint (symbol : String) (n : NewsItem) : Point :=
  { measurement := "market_news"
    symbol := symbol
    time := n.datetime
    fields :=
      [("headline", .str n.headline), ("summary", .str n.summary),
       ("source", .str n.source), ("url", .str n.url), ("id", .num n.id),
       ("category", .str (n.category.getD "N/A"))] }

/-- Events of the ingestion trace: provider calls, batch writes, and the
rate-limit sleep.  Only `sleep` takes time. -/
inductive Ev
  | fetchStock
  | writeStock (n : Nat)
  | fetchNews
  | writeNews (n : Nat)
  | sleep (d : Nat)
deriving DecidableEq

/-- Duration of a trace event: `time.sleep(d)` takes `d` time units, every
other operation enforces no delay. -/
def evDur : Ev → Nat
  | .sleep d => d
  | _ => 0

/-- The external collaborators of the ingestion flow.  `existsQ` is the
store's answer to the existence-check count query (it receives the points
matching the query's measurement/symbol/range filters and returns the count
tables, or raises); `fetchBars` is `yf.download`; `fetchNews` is
`finnhub_client.company_news`; the write flags say whether a batch write
raises; `hasFinnhub` is whether the Finnhub client was initialized. -/
structure Env where
  existsQ : String → String → Int → Int → List Point → Except Unit (List (List Int))
  fetchBars : String → Int → Int → Except Unit (List Bar)
  fetchNews : String → Int → Int → Except Unit (List NewsItem)
  writeStockOk : Bool
  writeNewsOk : Bool
  hasFinnhub : Bool

/-- The store points matching the existence-check query of
`_check_data_exists`: measurement, `symbol` tag, and `range(start, stop)`
(start-inclusive, stop-exclusive). -/
def matching (store : List Point) (symbol measurement : String)
    (start stop : Int) : List Point :=
  store.filter fun p =>
    p.measurement == measurement && p.symbol == symbol &&
      decide (start ≤ p.time) && decide (p.time < stop)

/-- `_check_data_exists`: run the count query; on any exception return
`false` (assume data absent); otherwise report whether the result has a
table whose first record carries a positive count
(`len(result) > 0 and len(result[0].records) > 0 and
result[0].records[0].get_value() > 0`). -/
def checkDataExists (env : Env) (store : List Point) (symbol : String)
    (start stop : Int) (measurement : String) : Bool :=
  match env.existsQ symbol measurement start stop
      (matching store symbol measurement start stop) with
  | .error _ => false
  | .ok [] => false
  | .ok ([] :: _) => false
  | .ok ((v :: _) :: _) => decide (0 < v)

/-- `_ingest_stock_data`: fetch bars; an exception yields `False`; an empty
result yields `True` with nothing written; otherwise convert the bars to
points and batch-write them (a write exception yields `False` and persists
nothing). -/
def ingestStockData (env : Env) (store : List Point) (symbol : String)
    (start stop : Int) : Bool × List Point × List Ev :=
  match env.fetchBars symbol start stop with
  | .error _ => (false, store, [.fetchStock])
  | .ok [] => (true, store, [.fetchStock])
  | .ok (b :: bs) =>
    let pts := (b :: bs).map (barToPoint symbol)
    if env.writeStockOk then
      (true, store ++ pts, [.fetchStock, .writeStock pts.length])
    else
      (false, store, [.fetchStock])

/-- `_ingest_news_data`: without a Finnhub client return `False` at once;
otherwise fetch news (an exception yields `False`); an empty result yields
`True` with nothing written and no sleep; otherwise convert, batch-write
(a write exception yields `False`, skipping the sleep), then
`time.sleep(1)` and return `True`. -/
def ingestNewsData (env : Env) (store : List Point) (symbol : String)
    (start stop : Int) : Bool × List Point × List Ev :=
  if !env.hasFinnhub then (false, store, [])
  else
    match env.fetchNews symbol start stop with
    | .error _ => (false, store, [.fetchNews])
    | .ok [] => (true, store, [.fetchNews])
    | .ok (n :: ns) =>
      let pts := (n :: ns).map (newsToPoint symbol)
      if env.writeNewsOk then
        (true, store ++ pts, [.fetchNews, .writeNews pts.length, .sleep 1])
      else
        (false, store, [.fetchNews])

/-- Whether a year is a leap year (Gregorian rule, as in `datetime`). -/
def isLeapYear (y : Nat) : Bool :=
  (y % 4 == 0 && y % 100 != 0) || y % 400 == 0

/-- Days in a month of a given year. -/
def daysInMonth (y m : Nat) : Nat :=
  if m == 2 then (if isLeapYear y then 29 else 28)
  else if m == 4 || m == 6 || m == 9 || m == 11 then 30
  else 31

/-- Days in the months of year `y` strictly before month `m`. -/
def daysBeforeMonth (y m : Nat) : Nat :=
  ((List.range (m - 1)).map fun i => daysInMonth y (i + 1)).sum

/-- Day number of a proleptic-Gregorian calendar date (the concrete instant
a parsed date denotes). -/
def dateToDays (y m d : Nat) : Int :=
  (365 * (y - 1) + (y - 1) / 4 - (y - 1) / 100 + (y - 1) / 400
    + daysBeforeMonth y m + (d - 1) : Nat)

/-- Split a character sequence at every dash (the component structure the
`%Y-%m-%d` pattern imposes). -/
def splitDashes : List Char → List (List Char)
  | [] => [[]]
  | c :: rest =>
    if c = '-' then [] :: splitDashes rest
    else
      match splitDashes rest with
      | [] => [[c]]
      | g :: gs => (c :: g) :: gs

/-- The numeric value of an ASCII digit. -/
def digitVal (c : Char) : Nat := c.toNat - 48

/-- The `%Y` field of CPython `_strptime`: exactly four digits
(`(?P<Y>\d\d\d\d)`). -/
def parseYearField (cs : List Char) : Option Nat :=
  match cs with
  | [c1, c2, c3, c4] =>
    if c1.isDigit && c2.isDigit && c3.isDigit && c4.isDigit then
      some (digitVal c1 * 1000 + digitVal c2 * 100 + digitVal c3 * 10 +
        digitVal c4)
    else none
  | _ => none

/-- The `%m` field of CPython `_strptime`
(`(?P<m>1[0-2]|0[1-9]|[1-9])`): two digits reading 01–12, or a single
digit 1–9 (no space padding). -/
def parseMonthField (cs : List Char) : Option Nat :=
  match cs with
  | [c] => if c.isDigit && c ≠ '0' then some (digitVal c) else none
  | [c1, c2] =>
    if c1.isDigit && c2.isDigit then
      let v := digitVal c1 * 10 + digitVal c2
      if 1 ≤ v && v ≤ 12 then some v else none
    else none
  | _ => none

/-- The `%d` field of CPython `_strptime`
(`(?P<d>3[01]|[12]\d|0[1-9]|[1-9]| [1-9])`): two digits reading 01–31, a
single digit 1–9, or a space-padded digit 1–9 (the ANSI-C padding
`strptime` accepts). -/
def parseDayField (cs : List Char) : Option Nat :=
  match cs with
  | [c] => if c.isDigit && c ≠ '0' then some (digitVal c) else none
  | [' ', c] => if c.isDigit && c ≠ '0' then some (digitVal c) else none
  | [c1, c2] =>
    if c1.isDigit && c2.isDigit then
      let v := digitVal c1 * 10 + digitVal c2
      if 1 ≤ v && v ≤ 31 then some v else none
    else none
  | _ => none

/-- `datetime.strptime(s, "%Y-%m-%d")` over ASCII inputs: CPython matches
the whole string against
`(?P<Y>\d\d\d\d)-(?P<m>1[0-2]|0[1-9]|[1-9])-(?P<d>3[01]|[12]\d|0[1-9]|[1-9]| [1-9])`
(anchored at the start; leftover characters raise "unconverted data
remains"), then builds a `datetime`, whose constructor validates the year
(≥ 1) and the day against the month's length.  None of the three fields
can contain a dash, so the pattern decomposes the string at its dashes.
Any failure raises `ValueError`, modelled as `none`. -/
def parseDate (s : String) : Option Int :=
  match splitDashes s.data with
  | [ys, ms, ds] =>
    match parseYearField ys, parseMonthField ms, parseDayField ds with
    | some y, some m, some d =>
      if 1 ≤ y ∧ 1 ≤ d ∧ d ≤ daysInMonth y m then some (dateToDays y m d)
      else none
    | _, _, _ => none
  | _ => none

/-- A date argument of `ingest_data`: either a string (to be parsed) or an
already-concrete date. -/
inductive DateInput
  | str (s : String)
  | dt (t : Int)
deriving DecidableEq

/-- Date normalization at the top of `ingest_data`: parse strings with
`strptime`, pass date objects through. -/
def normalizeDate : DateInput → Option Int
  | .str s => parseDate s
  | .dt t => some t

/-- The stock sub-flow of `ingest_data`: existence check for
`"stock_data"`, skip (success, nothing fetched or written) when present,
otherwise `_ingest_stock_data`. -/
def stockPhase (env : Env) (store : List Point) (symbol : String)
    (start stop : Int) : Bool × List Point × List Ev :=
  if checkDataExists env store symbol start stop "stock_data" then
    (true, store, [])
  else ingestStockData env store symbol start stop

/-- The news sub-flow of `ingest_data`: existence check for
`"market_news"`, skip when present, otherwise `_ingest_news_data`. -/
def newsPhase (env : Env) (store : List Point) (symbol : String)
    (start stop : Int) : Bool × List Point × List Ev :=
  if checkDataExists env store symbol start stop "market_news" then
    (true, store, [])
  else ingestNewsData env store symbol start stop

/-- The outcome of one `ingest_data` run, keeping the two sub-flow results
and traces separate (the Python locals `stock_success` / `news_success`). -/
structure IngestResult where
  stockSuccess : Bool
  newsSuccess : Bool
  store : List Point
  stockTrace : List Ev
  newsTrace : List Ev
deriving DecidableEq

/-- `ingest_data` with its internal state exposed: normalize the dates
(a malformed string raises `ValueError`, which nothing in `ingest_data`
catches, hence `Except.error`), run the stock sub-flow, then the news
sub-flow against the store as left by the stock sub-flow. -/
def ingestDataFull (env : Env) (store : List Point) (symbol : String)
    (startDate endDate : DateInput) : Except Unit IngestResult :=
  match normalizeDate startDate, normalizeDate endDate with
  | some start, some stop =>
    let s := stockPhase env store symbol start stop
    let n := newsPhase env s.2.1 symbol start stop
    .ok ⟨s.1, n.1, n.2.1, s.2.2, n.2.2⟩
  | _, _ => .error ()

/-- `ingest_data` as seen by the caller: the boolean
`stock_success and news_success`, together with the resulting store and
the combined trace; a malformed date propagates as an exception. -/
def ingestData (env : Env) (store : List Point) (symbol : String)
    (startDate endDate : DateInput) : Except Unit (Bool × List Point × List Ev) :=
  (ingestDataFull env store symbol startDate endDate).map fun r =>
    (r.stockSuccess && r.newsSuccess, r.store, r.stockTrace ++ r.newsTrace)

/-- The PriceBars of a store: the points of measurement `"stock_data"`. -/
def stockPoints (store : List Point) : List Point :=
  store.filter fun p => p.measurement == "stock_data"

/-- Provider-call times of a trace starting at clock value `t`: the clock
advances by `evDur` per event, and the time of every `fetchNews` event is
collected. -/
def fetchNewsTimes : List Ev → Nat → List Nat
  | [], _ => []
  | e :: es, t =>
    (if e = Ev.fetchNews then [t] else []) ++ fetchNewsTimes es (t + evDur e)

/-! ## Retrieval (`retrieve_data`)

A Flux query result is a list of tables of records; the code reads the
measurement of a table from its first record and processes every record of
the table under that measurement. -/

/-- One Flux record as consumed by `retrieve_data`: its measurement, the
optional `symbol` tag, `_time`, `_value` (the close price on stock rows),
and the pivoted news columns. -/
structure Rec where
  measurement : String
  symbol : Option String
  time : Option Int
  value : Option Int
  headline : Option String
  summary : Option String
  url : Option String
deriving DecidableEq

/-- One Flux result table. -/
structure QTable where
  records : List Rec
deriving DecidableEq

/-- The rows processed by the `retrieve_data` loop: every record of every
table, paired with the measurement read from its table's first record
(`table.records[0].get_measurement() if table.records else None`). -/
def tableRows (tables : List QTable) : List (Option String × Rec) :=
  tables.flatMap fun tb =>
    tb.records.map fun r => ((tb.records.head?).map Rec.measurement, r)

/-- A news event accumulated by `retrieve_data`. -/
structure NewsRow where
  time : Int
  headline : String
  summary : String
  url : String
deriving DecidableEq

/-- Python-dict insertion into a timestamp-keyed mapping:
`d[k] = v` overwrites in place if the key exists, else appends. -/
def dictInsert (m : List (Int × Int)) (k : Int) (v : Int) : List (Int × Int) :=
  if m.any fun p => p.1 == k then
    m.map fun p => if p.1 == k then (k, v) else p
  else m ++ [(k, v)]

/-- Update the entry of symbol `s` in a symbol-keyed accumulator
(`stock_data[symbol]` / `news_data[symbol]`; the key is always present,
having been initialized for every requested symbol). -/
def updateSymbol {α : Type} (acc : List (String × α)) (s : String)
    (f : α → α) : List (String × α) :=
  acc.map fun p => if p.1 == s then (p.1, f p.2) else p

/-- The keys of a Python dict filled by `for symbol in symbols:
d[symbol] = init`: first occurrences, in order. -/
def dedupFirst : List String → List String
  | [] => []
  | s :: rest => s :: (dedupFirst rest).filter (· ≠ s)

/-- The accumulator state of the `retrieve_data` result loop: the per-symbol
close-price mapping and the per-symbol news list. -/
abbrev RetrAcc := List (String × List (Int × Int)) × List (String × List NewsRow)

/-- The initial accumulator: every requested symbol mapped to an empty
price dict and an empty news list. -/
def initAcc (symbols : List String) : RetrAcc :=
  ((dedupFirst symbols).map fun s => (s, ([] : List (Int × Int))),
   (dedupFirst symbols).map fun s => (s, ([] : List NewsRow)))

/-- The body of the `retrieve_data` result loop for one record: skip records
whose symbol tag is missing or not requested; on a `"stock_data"` table
store `stock_data[symbol][time] = value` when time and value are present; on
a `"market_news"` table append a news event when time and a non-empty
headline are present, defaulting summary and url to the empty string. -/
def processRow (symbols : List String) (acc : RetrAcc)
    (row : Option String × Rec) : RetrAcc :=
  match row.2.symbol with
  | none => acc
  | some s =>
    if s ∈ symbols then
      match row.1 with
      | some "stock_data" =>
        match row.2.time, row.2.value with
        | some t, some v => (updateSymbol acc.1 s (dictInsert · t v), acc.2)
        | _, _ => acc
      | some "market_news" =>
        match row.2.time, row.2.headline with
        | some t, some h =>
          if h == "" then acc
          else
            (acc.1,
             updateSymbol acc.2 s
               (· ++ [⟨t, h, (row.2.summary).getD "", (row.2.url).getD ""⟩]))
        | _, _ => acc
      | _ => acc
    else acc

/-- Sort timestamps ascending (`sort_index()`). -/
def sortTimes (l : List Int) : List Int := List.insertionSort (· ≤ ·) l

/-- A timestamp not yet in the accumulating list is appended (union of the
per-symbol dict key sets, as formed by `DataFrame.from_dict`). -/
def addTime (acc : List Int) (t : Int) : List Int :=
  if t ∈ acc then acc else acc ++ [t]

/-- The union of the timestamps of all per-symbol price dicts. -/
def unionTimes (stockAcc : List (String × List (Int × Int))) : List Int :=
  (stockAcc.flatMap fun p => p.2.map Prod.fst).foldl addTime []

/-- The dense price table `retrieve_data` returns: column labels, timestamp
index, and per-index rows of per-column optional close prices (`none` is a
missing cell, NaN in the DataFrame). -/
structure PriceTable where
  columns : List String
  index : List Int
  cells : List (List (Option Int))
deriving DecidableEq

/-- `pd.DataFrame.from_dict` on the accumulated price mapping followed by
the `stock_df.empty` check of `retrieve_data`: if no symbol accumulated any
price, the frame is empty and is replaced by a bare `pd.DataFrame()` (no
columns, no index); otherwise one column per accumulated symbol, the index
the sorted union of the timestamps, and each cell the symbol's price at
that timestamp if present. -/
def buildPriceTable (stockAcc : List (String × List (Int × Int))) : PriceTable :=
  if stockAcc.all fun p => p.2.isEmpty then ⟨[], [], []⟩
  else
    let index := sortTimes (unionTimes stockAcc)
    ⟨stockAcc.map Prod.fst, index,
     index.map fun t =>
       stockAcc.map fun p => (p.2.find? fun q => q.1 == t).map Prod.snd⟩

/-- The retrieval collaborator: the store's answer to the combined Flux
query built from the requested symbols and the time range (or an
exception). -/
structure REnv where
  queryRes : List String → String → String → Except Unit (List QTable)

/-- The accumulator produced by the `retrieve_data` result loop on a
successful query. -/
def retrieveAcc (symbols : List String) (tables : List QTable) : RetrAcc :=
  (tableRows tables).foldl (processRow symbols) (initAcc symbols)

/-- `retrieve_data`: on a query exception return an empty frame and an
empty news mapping; otherwise initialize both accumulators for every
requested symbol, process all result rows, and build the price table. -/
def retrieveData (env : REnv) (symbols : List String)
    (startTime endTime : String) : PriceTable × List (String × List NewsRow) :=
  match env.queryRes symbols startTime endTime with
  | .error _ => (⟨[], [], []⟩, [])
  | .ok tables =>
    let acc := retrieveAcc symbols tables
    (buildPriceTable acc.1, acc.2)

/-! ## Alignment (`visualize_data`)

`stock_df[symbol].reindex(news_times, method="nearest",
tolerance=pd.Timedelta("1d"))` delegates to pandas
`Index._get_nearest_indexer` on the sorted, unique price-series index: take
the pad indexer (last position at or before the target) and the backfill
indexer (first position at or after the target); on a monotonically
increasing index prefer pad only when its distance is strictly smaller
(`operator.lt`), so exact ties go to the backfill position; fall back to
the available side at the ends; finally null out positions farther than
the tolerance.  A `none` value attaches no price. -/

/-- Pad indexer of pandas `get_indexer(method="pad")` on a monotonically
increasing index: the last position whose timestamp is at or before `t`. -/
def padIdx : List Int → Int → Option Nat
  | [], _ => none
  | x :: xs, t =>
    if t < x then none
    else
      match padIdx xs t with
      | none => some 0
      | some j => some (j + 1)

/-- Backfill indexer of pandas `get_indexer(method="backfill")` on a
monotonically increasing index: the first position whose timestamp is at or
after `t`. -/
def bfillIdx : List Int → Int → Option Nat
  | [], _ => none
  | x :: xs, t => if t ≤ x then some 0 else (bfillIdx xs t).map (· + 1)

/-- Element of a timestamp index at a position (0 when out of range; only
used at in-range positions). -/
def nthD (l : List Int) (i : Nat) : Int := (l.get? i).getD 0

/-- The candidate position of pandas `_get_nearest_indexer` on a
monotonically increasing index, before the tolerance filter: choose
between the pad and backfill positions by strict distance comparison
(`operator.lt`, so exact ties go to backfill), falling back to the side
that exists at the ends of the index. -/
def nearestCand (idx : List Int) (t : Int) : Option Nat :=
  match padIdx idx t, bfillIdx idx t with
  | none, none => none
  | some l, none => some l
  | none, some r => some r
  | some l, some r =>
    if (nthD idx l - t).natAbs < (nthD idx r - t).natAbs then some l
    else some r

/-- pandas `_get_nearest_indexer` with tolerance on a monotonically
increasing index: the candidate position, dropped if its distance exceeds
the tolerance. -/
def nearestIdx (idx : List Int) (t : Int) (tol : Nat) : Option Nat :=
  match nearestCand idx t with
  | none => none
  | some i => if (nthD idx i - t).natAbs ≤ tol then some i else none

/-- The aligned price of one news event: the value of the price series at
the nearest-within-tolerance timestamp, if any. -/
def alignPrice (series : List (Int × Int)) (t : Int) (tol : Nat) : Option Int :=
  match nearestIdx (series.map Prod.fst) t tol with
  | none => none
  | some i => (series.get? i).map Prod.snd

/-- The aligned prices of a symbol's news events, as computed by the
`reindex` call of `visualize_data` over the news timestamps. -/
def alignedPrices (series : List (Int × Int)) (newsTimes : List Int)
    (tol : Nat) : List (Option Int) :=
  newsTimes.map fun t => alignPrice series t tol

/-! ## Concrete environments used to witness the theorems -/

/-- A sample OHLCV bar. -/
def barT : Bar := ⟨0, 1, 2, 0, 1, 5, none⟩

/-- A sample news item. -/
def newsItemT : NewsItem := ⟨5, "h", "s", "src", "u", 1, none⟩

/-- A well-behaved environment: the existence query truthfully counts the
matching points, the quote provider returns one bar at the range start for
a non-empty range, the news provider returns no items, writes succeed, and
the Finnhub client is configured. -/
def envT : Env where
  existsQ := fun _ _ _ _ pts => .ok [[(pts.length : Int)]]
  fetchBars := fun _ a b => if a < b then .ok [{ barT with ts := a }] else .ok []
  fetchNews := fun _ _ _ => .ok []
  writeStockOk := true
  writeNewsOk := true
  hasFinnhub := true

/-- `envT` with a news provider that returns one item. -/
def envN : Env := { envT with fetchNews := fun _ _ _ => .ok [newsItemT] }

/-- `envT` with a failing quote provider and failing stock writes. -/
def envTbad : Env :=
  { envT with fetchBars := fun _ _ _ => .error (), writeStockOk := false }

/-- An environment whose store raises on every existence query. -/
def envErr : Env := { envT with existsQ := fun _ _ _ _ _ => .error () }

/-- The point written for `barT` at timestamp 0 under symbol `"AAPL"`. -/
def ptT : Point := barToPoint "AAPL" { barT with ts := 0 }

/-- The result of a first `ingest_data` run of `envT` on symbol `"AAPL"`,
range `[0, 10)`, from an empty store. -/
def resT1 : IngestResult :=
  ⟨true, true, [ptT], [.fetchStock, .writeStock 1], [.fetchNews]⟩

/-- The result of a second `ingest_data` run of `envT` from the store the
first run left. -/
def resT2 : IngestResult := ⟨true, true, [ptT], [], [.fetchNews]⟩

/-- Whether a result row carries a requested symbol tag
(the `if symbol not in symbols: continue` guard). -/
def rowMatches (symbols : List String) (row : Option String × Rec) : Bool :=
  match row.2.symbol with
  | none => false
  | some s => decide (s ∈ symbols)

/-- A query result row: a close price 101 for `"AAPL"` at timestamp 3. -/
def recA : Rec := ⟨"stock_data", some "AAPL", some 3, some 101, none, none, none⟩

/-- A query result row: a news headline for `"GOOG"` at timestamp 7. -/
def recG : Rec :=
  ⟨"market_news", some "GOOG", some 7, none, some "head", some "sum", some "u"⟩

/-- A store with no data at all for the query. -/
def envR0 : REnv := ⟨fun _ _ _ => .ok []⟩

/-- A store holding only the `"AAPL"` close-price row. -/
def envR1 : REnv := ⟨fun _ _ _ => .ok [⟨[recA]⟩]⟩

/-- A store holding only the `"GOOG"` news row. -/
def envR2 : REnv := ⟨fun _ _ _ => .ok [⟨[recG]⟩]⟩

/-- An existence oracle is truthful when it answers every count query with
exactly the number of matching points (the store reporting existence
truthfully). -/
def TruthfulExists (env : Env) : Prop :=
  ∀ s m a b pts, env.existsQ s m a b pts = .ok [[(pts.length : Int)]]

/-- The quote provider honours the requested range: every returned bar has
its timestamp inside `[start, stop)` (as `yf.download(start, end)` does). -/
def BarsInRange (env : Env) : Prop :=
  ∀ s a b bars, env.fetchBars s a b = .ok bars →
    ∀ bar ∈ bars, a ≤ bar.ts ∧ bar.ts < b

/-- The news sub-flow's observable outcome (its success flag and trace). -/
def newsView (r : Except Unit IngestResult) : Except Unit (Bool × List Ev) :=
  r.map fun x => (x.newsSuccess, x.newsTrace)

/-- The stock sub-flow's observable outcome (its success flag and trace). -/
def stockView (r : Except Unit IngestResult) : Except Unit (Bool × List Ev) :=
  r.map fun x => (x.stockSuccess, x.stockTrace)

/-! ## Theorems -/

/-- **C2.** For every symbol, measurement, and date range, if the store
query issued by the existence check raises, `_check_data_exists` returns
`false` (never `true`); consequently the coordinator proceeds to the
ingestion attempt for that measurement: with the stock query failing the
stock sub-flow calls the quote provider, and with the news query failing
the news sub-flow runs `_ingest_news_data`. -/
theorem existence_check_fails_closed :
    ∀ (env : Env) (store : List Point) (symbol : String) (a b : Int) (m : String),
      (env.existsQ symbol m a b (matching store symbol m a b) = .error () →
        checkDataExists env store symbol a b m = false) ∧
      (env.existsQ symbol "stock_data" a b
          (matching store symbol "stock_data" a b) = .error () →
        ∀ r, ingestDataFull env store symbol (.dt a) (.dt b) = .ok r →
          Ev.fetchStock ∈ r.stockTrace) ∧
      (env.existsQ symbol "market_news" a b
          (matching store symbol "market_news" a b) = .error () →
        newsPhase env store symbol a b = ingestNewsData env store symbol a b) := by
  intro env store symbol a b m
  have check_false : ∀ m', env.existsQ symbol m' a b
      (matching store symbol m' a b) = .error () →
      checkDataExists env store symbol a b m' = false := by
    intro m' h
    unfold checkDataExists
    rw [h]
  have fetch_mem : ∀ st, Ev.fetchStock ∈ (ingestStockData env st symbol a b).2.2 := by
    intro st
    unfold ingestStockData
    cases env.fetchBars symbol a b with
    | error e => simp
    | ok bars =>
      cases bars with
      | nil => simp
      | cons x xs => dsimp only; split <;> simp
  refine ⟨check_false m, ?_, ?_⟩
  · intro h r hr
    have hc := check_false "stock_data" h
    have : r.stockTrace = (stockPhase env store symbol a b).2.2 := by
      unfold ingestDataFull normalizeDate at hr
      cases hr
      rfl
    rw [this]
    unfold stockPhase
    rw [hc]
    simp only [Bool.false_eq_true, if_false]
    exact fetch_mem store
  · intro h
    have hc := check_false "market_news" h
    unfold newsPhase
    rw [hc]
    simp

/-- Witness for C2 at a concrete erroring store: the existence check
reports absent, the coordinator's stock trace contains the provider call,
and the news phase falls through to `_ingest_news_data`. -/
theorem existence_check_fails_closed_witness :
    checkDataExists envErr [] "AAPL" 0 0 "stock_data" = false ∧
    Ev.fetchStock ∈
      (⟨true, true, [], [Ev.fetchStock], [Ev.fetchNews]⟩ : IngestResult).stockTrace ∧
    newsPhase envErr [] "AAPL" 0 0 = ingestNewsData envErr [] "AAPL" 0 0 := by
  obtain ⟨h1, h2, h3⟩ := existence_check_fails_closed envErr [] "AAPL" 0 0 "stock_data"
  exact ⟨h1 rfl, h2 rfl ⟨true, true, [], [Ev.fetchStock], [Ev.fetchNews]⟩ (by decide),
    h3 rfl⟩

/-- **C5.** For every symbol and date range on which the provider returns
an empty record set, the sub-flow returns success with the store unchanged
and no write event (an empty fetch result is not a failure): this holds
both for `_ingest_stock_data` and, given a configured Finnhub client, for
`_ingest_news_data`. -/
theorem empty_fetch_is_success :
    ∀ (env : Env) (store : List Point) (symbol : String) (a b : Int),
      (env.fetchBars symbol a b = .ok [] →
        ingestStockData env store symbol a b = (true, store, [Ev.fetchStock])) ∧
      (env.hasFinnhub = true → env.fetchNews symbol a b = .ok [] →
        ingestNewsData env store symbol a b = (true, store, [Ev.fetchNews])) := by
  intro env store symbol a b
  constructor
  · intro h
    unfold ingestStockData
    rw [h]
  · intro hf h
    unfold ingestNewsData
    rw [hf, h]
    rfl

/-- Witness for C5: a provider returning no rows over `[0, 0)` yields
success with nothing written, for both sub-flows. -/
theorem empty_fetch_is_success_witness :
    ingestStockData envT [] "AAPL" 0 0 = (true, [], [Ev.fetchStock]) ∧
    ingestNewsData envT [] "AAPL" 0 0 = (true, [], [Ev.fetchNews]) :=
  ⟨(empty_fetch_is_success envT [] "AAPL" 0 0).1 rfl,
   (empty_fetch_is_success envT [] "AAPL" 0 0).2 rfl rfl⟩

/-- **C4, counterexample.** The claim says a malformed date is rejected
with a validation error that is "reported to the caller as a result" and
"never unwinds past the Ingestion Coordinator".  In the code nothing in
`ingest_data` catches the `ValueError` of `datetime.strptime`, so the run
terminates with an exception instead of a returned success/failure result:
at the concrete malformed input the embedded coordinator produces
`Except.error`, not an `ok` result. -/
theorem malformed_date_raises :
    ingestData envT [] "AAPL" (.str "not-a-date") (.str "2024-01-01") =
      .error () := by
  rfl

/-- **C4, amended.** For every symbol, a malformed start or end date makes
`ingest_data` raise before consulting any collaborator: the outcome is the
same parse exception for every environment and store, so the failure is
fast and has no partial side effects for that symbol — but it propagates
to the caller as an exception rather than as a reported result. -/
theorem malformed_date_fails_fast :
    ∀ (env : Env) (store : List Point) (symbol : String) (sd ed : DateInput),
      (normalizeDate sd = none ∨ normalizeDate ed = none) →
      ingestData env store symbol sd ed = .error () := by
  intro env store symbol sd ed h
  unfold ingestData ingestDataFull
  cases hsd : normalizeDate sd with
  | none => rfl
  | some x =>
    cases hed : normalizeDate ed with
    | none => rfl
    | some y =>
      rw [hsd, hed] at h
      rcases h with h | h <;> exact absurd h (by simp)

/-- The embedded `strptime` agrees with CPython on the decisive inputs:
zero-padded, space-padded and unpadded month/day parse; a two- or
three-digit year is rejected (`%Y` is exactly four digits); a day beyond
the month's length is rejected by the `datetime` constructor. -/
theorem parseDate_examples :
    parseDate "2024-01-05" = some (dateToDays 2024 1 5) ∧
    parseDate "2024-01- 5" = some (dateToDays 2024 1 5) ∧
    parseDate "2024-1-5" = some (dateToDays 2024 1 5) ∧
    parseDate "24-01-01" = none ∧
    parseDate "999-12-31" = none ∧
    parseDate "2024-02-30" = none :=
  ⟨rfl, rfl, rfl, rfl, rfl, rfl⟩

/-- Witness for C4 (amended): the malformed string `"24-01-01"` (a
two-digit year, which `%Y` rejects) fails to parse, and `ingest_data` on
it raises for the concrete environment `envT`. -/
theorem malformed_date_fails_fast_witness :
    normalizeDate (.str "24-01-01") = none ∧
    ingestData envT [] "AAPL" (.str "24-01-01") (.dt 0) = .error () :=
  ⟨rfl, malformed_date_fails_fast envT [] "AAPL" (.str "24-01-01") (.dt 0)
    (Or.inl rfl)⟩

/-! ### Alignment lemmas -/

theorem nthD_of_get? (l : List Int) (i : Nat) (a : Int) (h : l.get? i = some a) :
    nthD l i = a := by
  unfold nthD
  rw [h]
  rfl

theorem nthD_mem (l : List Int) (i : Nat) (h : i < l.length) : nthD l i ∈ l := by
  unfold nthD
  cases hg : l.get? i with
  | none =>
    rw [List.get?_eq_none] at hg
    omega
  | some a =>
    simpa using List.get?_mem hg

theorem padIdx_lt_length :
    ∀ (idx : List Int) (t : Int) (i : Nat), padIdx idx t = some i → i < idx.length := by
  intro idx
  induction idx with
  | nil => intro t i h; simp [padIdx] at h
  | cons x xs ih =>
    intro t i h
    unfold padIdx at h
    split at h
    · exact absurd h (by simp)
    · cases hp : padIdx xs t with
      | none => rw [hp] at h; cases h; simp
      | some j =>
        rw [hp] at h
        cases h
        have := ih t j hp
        simp only [List.length_cons]
        omega

theorem bfillIdx_lt_length :
    ∀ (idx : List Int) (t : Int) (i : Nat), bfillIdx idx t = some i → i < idx.length := by
  intro idx
  induction idx with
  | nil => intro t i h; simp [bfillIdx] at h
  | cons x xs ih =>
    intro t i h
    unfold bfillIdx at h
    split at h
    · cases h; simp
    · cases hb : bfillIdx xs t with
      | none => rw [hb] at h; simp at h
      | some j =>
        rw [hb] at h
        simp only [Option.map_some'] at h
        cases h
        have := ih t j hb
        simp only [List.length_cons]
        omega

theorem nearestCand_lt_length (idx : List Int) (t : Int) (i : Nat)
    (h : nearestCand idx t = some i) : i < idx.length := by
  unfold nearestCand at h
  cases hp : padIdx idx t with
  | none =>
    cases hb : bfillIdx idx t with
    | none => rw [hp, hb] at h; simp at h
    | some r =>
      rw [hp, hb] at h
      cases h
      exact bfillIdx_lt_length idx t _ hb
  | some l =>
    cases hb : bfillIdx idx t with
    | none =>
      rw [hp, hb] at h
      cases h
      exact padIdx_lt_length idx t _ hp
    | some r =>
      rw [hp, hb] at h
      dsimp only at h
      split at h <;> cases h
      · exact padIdx_lt_length idx t _ hp
      · exact bfillIdx_lt_length idx t _ hb

theorem nearestIdx_spec (idx : List Int) (t : Int) (tol : Nat) (i : Nat)
    (h : nearestIdx idx t tol = some i) :
    i < idx.length ∧ (nthD idx i - t).natAbs ≤ tol := by
  unfold nearestIdx at h
  cases hc : nearestCand idx t with
  | none => rw [hc] at h; simp at h
  | some j =>
    rw [hc] at h
    dsimp only at h
    split at h
    · cases h
      exact ⟨nearestCand_lt_length idx t _ hc, by assumption⟩
    · simp at h

theorem padIdx_between :
    ∀ (idx : List Int) (i : Nat) (a b t : Int),
      List.Pairwise (· < ·) idx →
      idx.get? i = some a → idx.get? (i + 1) = some b →
      a ≤ t → t < b → padIdx idx t = some i := by
  intro idx
  induction idx with
  | nil => intro i a b t _ h; simp at h
  | cons x xs ih =>
    intro i a b t hpw ha hb hat htb
    cases i with
    | zero =>
      simp only [List.get?] at ha hb
      injection ha with ha'
      subst ha'
      cases xs with
      | nil => simp at hb
      | cons y ys =>
        simp only [List.get?] at hb
        injection hb with hb'
        subst hb'
        have hy : padIdx (y :: ys) t = none := by
          unfold padIdx
          rw [if_pos htb]
        unfold padIdx
        rw [if_neg (not_lt.mpr hat), hy]
    | succ k =>
      simp only [List.get?] at ha hb
      have hx : x < a := (List.pairwise_cons.mp hpw).1 a (List.get?_mem ha)
      have ih' := ih k a b t (List.pairwise_cons.mp hpw).2 ha hb hat htb
      unfold padIdx
      rw [if_neg (by omega : ¬ t < x), ih']

theorem bfillIdx_between :
    ∀ (idx : List Int) (i : Nat) (a b t : Int),
      List.Pairwise (· < ·) idx →
      idx.get? i = some a → idx.get? (i + 1) = some b →
      a < t → t ≤ b → bfillIdx idx t = some (i + 1) := by
  intro idx
  induction idx with
  | nil => intro i a b t _ h; simp at h
  | cons x xs ih =>
    intro i a b t hpw ha hb hat htb
    cases i with
    | zero =>
      simp only [List.get?] at ha hb
      injection ha with ha'
      subst ha'
      cases xs with
      | nil => simp at hb
      | cons y ys =>
        simp only [List.get?] at hb
        injection hb with hb'
        subst hb'
        have hy : bfillIdx (y :: ys) t = some 0 := by
          unfold bfillIdx
          rw [if_pos htb]
        unfold bfillIdx
        rw [if_neg (not_le.mpr hat), hy]
        rfl
    | succ k =>
      simp only [List.get?] at ha hb
      have hx : x < a := (List.pairwise_cons.mp hpw).1 a (List.get?_mem ha)
      have ih' := ih k a b t (List.pairwise_cons.mp hpw).2 ha hb hat htb
      unfold bfillIdx
      rw [if_neg (by omega : ¬ t ≤ x), ih']
      rfl

/-- **C7.** For every price series and news item, if no price-series
timestamp lies within the configured tolerance of the news item's
timestamp, the alignment attaches no price to the item (it never
fabricates a price outside the tolerance). -/
theorem no_price_outside_tolerance :
    ∀ (series : List (Int × Int)) (t : Int) (tol : Nat),
      (∀ p ∈ series, tol < (p.1 - t).natAbs) →
      alignPrice series t tol = none := by
  intro series t tol h
  unfold alignPrice
  cases hn : nearestIdx (series.map Prod.fst) t tol with
  | none => rfl
  | some i =>
    exfalso
    obtain ⟨hlen, htol⟩ := nearestIdx_spec _ t tol i hn
    have hmem := nthD_mem (series.map Prod.fst) i hlen
    rw [List.mem_map] at hmem
    obtain ⟨p, hp, hpe⟩ := hmem
    have := h p hp
    rw [hpe] at this
    omega

/-- Witness for C7: a single price at timestamp 0 is 100 units away from a
news item at timestamp 100, beyond tolerance 1, so no price is attached. -/
theorem no_price_outside_tolerance_witness :
    (1 : Nat) < ((0 : Int) - 100).natAbs ∧
    alignPrice [((0 : Int), (100 : Int))] 100 1 = none :=
  ⟨by decide,
   no_price_outside_tolerance [((0 : Int), (100 : Int))] 100 1
     (by rintro p hp; simp at hp; subst hp; decide)⟩

/-- **C6, counterexample.** The claim says a news item exactly equidistant
between two price timestamps aligns to the earlier one.  pandas
`reindex(method="nearest")` on a monotonically increasing index compares
the pad and backfill distances with `operator.lt`, so an exact tie picks
the backfill — the *later* — timestamp: with prices 100 at time 0 and 102
at time 2, a news item at time 1 gets 102, not the earlier price 100. -/
theorem align_tie_counterexample :
    alignPrice [((0 : Int), (100 : Int)), (2, 102)] 1 5 = some 102 ∧
    ((102 : Int) ≠ 100) := by
  exact ⟨by decide, by decide⟩

/-- **C6, amended.** For every price series with strictly increasing
timestamps and every news item exactly equidistant between two consecutive
price timestamps within the tolerance, the alignment attaches the price at
the **later** of the two timestamps. -/
theorem align_tie_prefers_later :
    ∀ (series : List (Int × Int)) (i : Nat) (a va b vb t : Int) (tol : Nat),
      List.Pairwise (· < ·) (series.map Prod.fst) →
      series.get? i = some (a, va) → series.get? (i + 1) = some (b, vb) →
      a < b → t - a = b - t → (b - t).natAbs ≤ tol →
      alignPrice series t tol = some vb := by
  intro series i a va b vb t tol hpw hgi hgi1 hab htie htol
  have hat : a < t := by omega
  have htb : t < b := by omega
  have hga : (series.map Prod.fst).get? i = some a := by
    rw [List.get?_map, hgi]
    rfl
  have hgb : (series.map Prod.fst).get? (i + 1) = some b := by
    rw [List.get?_map, hgi1]
    rfl
  have hp := padIdx_between _ i a b t hpw hga hgb (le_of_lt hat) htb
  have hb' := bfillIdx_between _ i a b t hpw hga hgb hat (le_of_lt htb)
  have hna : nthD (series.map Prod.fst) i = a := nthD_of_get? _ _ _ hga
  have hnb : nthD (series.map Prod.fst) (i + 1) = b := nthD_of_get? _ _ _ hgb
  have hdist : (a - t).natAbs = (b - t).natAbs := by
    rw [show a - t = -(b - t) by omega, Int.natAbs_neg]
  have hc : nearestCand (series.map Prod.fst) t = some (i + 1) := by
    unfold nearestCand
    rw [hp, hb']
    dsimp only
    rw [hna, hnb, hdist, if_neg (lt_irrefl _)]
  have hn : nearestIdx (series.map Prod.fst) t tol = some (i + 1) := by
    unfold nearestIdx
    rw [hc]
    dsimp only
    rw [hnb, if_pos htol]
  unfold alignPrice
  rw [hn]
  dsimp only
  rw [hgi1]
  rfl

/-- Witness for C6 (amended): prices 100 at time 0 and 102 at time 2, news
at time 1 with tolerance 5: the later price 102 is attached. -/
theorem align_tie_prefers_later_witness :
    alignPrice [((0 : Int), (100 : Int)), (2, 102)] 1 5 = some 102 :=
  align_tie_prefers_later [((0 : Int), (100 : Int)), (2, 102)] 0 0 100 2 102 1 5
    (by decide) rfl rfl (by decide) (by decide) (by decide)

/-- **C9, counterexample.** The claim says at least 1 time unit elapses
between any two successive news-provider calls.  `_ingest_news_data`
sleeps only after a fetch that returned data and was written without
error; a fetch returning no news returns at once, so two successive
invocations whose first fetch is empty issue provider calls 0 time units
apart. -/
theorem news_rate_limit_counterexample :
    ¬ List.Chain' (fun x y => x + 1 ≤ y)
      (fetchNewsTimes
        ((ingestNewsData envT [] "AAPL" 0 10).2.2 ++
         (ingestNewsData envT [] "MSFT" 0 10).2.2) 0) := by
  intro hch
  have h : fetchNewsTimes
      ((ingestNewsData envT [] "AAPL" 0 10).2.2 ++
       (ingestNewsData envT [] "MSFT" 0 10).2.2) 0 = [0, 0] := rfl
  rw [h] at hch
  rcases List.chain'_cons.mp hch with ⟨h1, _⟩
  omega

/-- **C9, amended.** A news invocation whose fetch returns data and whose
write succeeds sleeps 1 time unit before returning, so the next news
provider call — in whatever invocation follows — happens at least 1 time
unit later; fetches that return no data or fail are followed by no delay,
and price fetches are never delayed (every event of a stock sub-flow trace
has zero duration). -/
theorem news_delay_after_data :
    ∀ (env env' env₂ : Env) (store store' store₂ : List Point)
      (s s' s₂ : String) (a b a' b' a₂ b₂ : Int) (n : NewsItem) (ns : List NewsItem),
      env.hasFinnhub = true → env.fetchNews s a b = .ok (n :: ns) →
      env.writeNewsOk = true →
      List.Chain' (fun x y => x + 1 ≤ y)
        (fetchNewsTimes
          ((ingestNewsData env store s a b).2.2 ++
           (ingestNewsData env' store' s' a' b').2.2) 0) ∧
      ((ingestStockData env₂ store₂ s₂ a₂ b₂).2.2.all fun e => evDur e == 0) = true := by
  intro env env' env₂ store store' store₂ s s' s₂ a b a' b' a₂ b₂ n ns hf hn hw
  constructor
  · have h1 : (ingestNewsData env store s a b).2.2 =
        [Ev.fetchNews, Ev.writeNews (n :: ns).length, Ev.sleep 1] := by
      unfold ingestNewsData
      rw [hf, hn]
      simp [hw]
    rw [h1]
    have h3 : (ingestNewsData env' store' s' a' b').2.2 = [] ∨
        (ingestNewsData env' store' s' a' b').2.2 = [Ev.fetchNews] ∨
        ∃ k, (ingestNewsData env' store' s' a' b').2.2 =
          [Ev.fetchNews, Ev.writeNews k, Ev.sleep 1] := by
      unfold ingestNewsData
      cases env'.hasFinnhub with
      | false => left; rfl
      | true =>
        cases env'.fetchNews s' a' b' with
        | error e => right; left; rfl
        | ok items =>
          cases items with
          | nil => right; left; rfl
          | cons m ms =>
            dsimp only
            cases env'.writeNewsOk with
            | false => right; left; rfl
            | true => right; right; exact ⟨_, rfl⟩
    rcases h3 with h3 | h3 | ⟨k, h3⟩ <;> rw [h3] <;>
      simp [fetchNewsTimes, evDur, List.Chain']
  · unfold ingestStockData
    cases env₂.fetchBars s₂ a₂ b₂ with
    | error e => rfl
    | ok bars =>
      cases bars with
      | nil => rfl
      | cons x xs =>
        dsimp only
        split <;> rfl

/-- Witness for C9 (amended): with a provider returning one news item and
writes succeeding, the two successive provider calls of two invocations
are 1 time unit apart, and the stock trace has only zero-duration
events. -/
theorem news_delay_after_data_witness :
    List.Chain' (fun x y => x + 1 ≤ y)
      (fetchNewsTimes
        ((ingestNewsData envN [] "AAPL" 0 10).2.2 ++
         (ingestNewsData envN [] "MSFT" 0 10).2.2) 0) ∧
    ((ingestStockData envN [] "AAPL" 0 10).2.2.all fun e => evDur e == 0) = true :=
  news_delay_after_data envN envN envN [] [] [] "AAPL" "MSFT" "AAPL"
    0 10 0 10 0 10 newsItemT [] rfl rfl rfl

/-! ### Retrieval lemmas -/

theorem updateSymbol_keys {α : Type} (acc : List (String × α)) (s : String)
    (f : α → α) : (updateSymbol acc s f).map Prod.fst = acc.map Prod.fst := by
  induction acc with
  | nil => rfl
  | cons p ps ih =>
    unfold updateSymbol at ih ⊢
    simp only [List.map_cons]
    rw [ih]
    congr 1
    split <;> rfl

theorem processRow_keys (symbols : List String) (acc : RetrAcc)
    (row : Option String × Rec) :
    (processRow symbols acc row).1.map Prod.fst = acc.1.map Prod.fst ∧
    (processRow symbols acc row).2.map Prod.fst = acc.2.map Prod.fst := by
  unfold processRow
  cases row.2.symbol with
  | none => exact ⟨rfl, rfl⟩
  | some s =>
    repeat' split
    all_goals simp [updateSymbol_keys]

theorem foldlProcess_keys (symbols : List String) :
    ∀ (rows : List (Option String × Rec)) (acc : RetrAcc),
      ((rows.foldl (processRow symbols) acc).1.map Prod.fst = acc.1.map Prod.fst) ∧
      ((rows.foldl (processRow symbols) acc).2.map Prod.fst = acc.2.map Prod.fst) := by
  intro rows
  induction rows with
  | nil => intro acc; exact ⟨rfl, rfl⟩
  | cons row rest ih =>
    intro acc
    simp only [List.foldl_cons]
    obtain ⟨h1, h2⟩ := ih (processRow symbols acc row)
    obtain ⟨g1, g2⟩ := processRow_keys symbols acc row
    exact ⟨h1.trans g1, h2.trans g2⟩

theorem map_fst_tag {α : Type} (l : List String) (z : α) :
    (l.map fun s => (s, z)).map Prod.fst = l := by
  induction l with
  | nil => rfl
  | cons s rest ih => simp [ih]

theorem initAcc_keys (symbols : List String) :
    (initAcc symbols).1.map Prod.fst = dedupFirst symbols ∧
    (initAcc symbols).2.map Prod.fst = dedupFirst symbols := by
  unfold initAcc
  exact ⟨map_fst_tag _ _, map_fst_tag _ _⟩

theorem retrieveAcc_keys (symbols : List String) (tables : List QTable) :
    (retrieveAcc symbols tables).1.map Prod.fst = dedupFirst symbols ∧
    (retrieveAcc symbols tables).2.map Prod.fst = dedupFirst symbols := by
  unfold retrieveAcc
  obtain ⟨h1, h2⟩ := foldlProcess_keys symbols (tableRows tables) (initAcc symbols)
  obtain ⟨g1, g2⟩ := initAcc_keys symbols
  exact ⟨h1.trans g1, h2.trans g2⟩

theorem processRow_skip (symbols : List String) (acc : RetrAcc)
    (row : Option String × Rec) (h : rowMatches symbols row = false) :
    processRow symbols acc row = acc := by
  unfold rowMatches at h
  unfold processRow
  cases hs : row.2.symbol with
  | none => rfl
  | some s =>
    rw [hs] at h
    simp only [decide_eq_false_iff_not] at h
    dsimp only
    rw [if_neg h]

theorem foldl_skip (symbols : List String) :
    ∀ (rows : List (Option String × Rec)) (acc : RetrAcc),
      rows.foldl (processRow symbols) acc =
        (rows.filter (rowMatches symbols)).foldl (processRow symbols) acc := by
  intro rows
  induction rows with
  | nil => intro acc; rfl
  | cons row rest ih =>
    intro acc
    simp only [List.foldl_cons, List.filter_cons]
    cases hm : rowMatches symbols row with
    | false =>
      simp only [hm, Bool.false_eq_true, if_false]
      rw [processRow_skip symbols acc row hm]
      exact ih acc
    | true =>
      simp only [hm, if_true, List.foldl_cons]
      exact ih (processRow symbols acc row)

theorem sorted_sortTimes (l : List Int) : List.Sorted (· ≤ ·) (sortTimes l) :=
  List.sorted_insertionSort _ l

/-- **C8, counterexample.** The claim says the PriceTable has exactly one
column per requested symbol, including symbols with no data.  When *no*
requested symbol has price data, `stock_df.empty` holds and the code
replaces the frame with a bare `pd.DataFrame()`, which has no columns at
all: retrieving `{"AAPL", "MSFT"}` from an empty store yields a table
without an `"MSFT"` column. -/
theorem retrieve_all_empty_counterexample :
    "MSFT" ∉ (retrieveData envR0 ["AAPL", "MSFT"] "0" "1").1.columns := by
  decide

/-- **C8, amended.** For every requested symbol list and successful query:
if at least one requested symbol accumulated a close price, the returned
PriceTable has exactly one column per requested symbol (first occurrences,
in order — including symbols with no data, whose column cells are all
missing) and its timestamp index is sorted ascending; if no symbol
accumulated any price, the table is the empty frame with no columns.
Absence of data is never an error.  (Timestamps are modelled as UTC
instants throughout, so UTC normalization is the identity here.) -/
theorem retrieve_price_table_shape :
    ∀ (env : REnv) (symbols : List String) (a b : String) (tables : List QTable),
      env.queryRes symbols a b = .ok tables →
      (((retrieveAcc symbols tables).1.all fun p => p.2.isEmpty) = true →
        (retrieveData env symbols a b).1 = ⟨[], [], []⟩) ∧
      (((retrieveAcc symbols tables).1.all fun p => p.2.isEmpty) = false →
        (retrieveData env symbols a b).1.columns = dedupFirst symbols ∧
        List.Sorted (· ≤ ·) (retrieveData env symbols a b).1.index) := by
  intro env symbols a b tables h
  have hr : retrieveData env symbols a b =
      (buildPriceTable (retrieveAcc symbols tables).1,
        (retrieveAcc symbols tables).2) := by
    unfold retrieveData
    rw [h]
  constructor
  · intro he
    rw [hr]
    dsimp only
    unfold buildPriceTable
    rw [if_pos he]
  · intro he
    rw [hr]
    dsimp only
    unfold buildPriceTable
    rw [if_neg (by rw [he]; exact Bool.false_ne_true)]
    exact ⟨(retrieveAcc_keys symbols tables).1, sorted_sortTimes _⟩

/-- Witness for C8 (amended): with only an `"AAPL"` row present, retrieving
`{"AAPL", "MSFT"}` returns a table with both columns, sorted. -/
theorem retrieve_price_table_shape_witness :
    (retrieveData envR1 ["AAPL", "MSFT"] "0" "1").1.columns = ["AAPL", "MSFT"] ∧
    List.Sorted (· ≤ ·) (retrieveData envR1 ["AAPL", "MSFT"] "0" "1").1.index := by
  have h := (retrieve_price_table_shape envR1 ["AAPL", "MSFT"] "0" "1"
    [⟨[recA]⟩] rfl).2 (by decide)
  exact ⟨h.1.trans (by decide), h.2⟩

/-- **C10, counterexample.** The claim says both returned structures are
keyed exactly by the requested symbols, every requested symbol being
present as a key even with no data.  When the requested symbol has news
but no prices, the price structure is the bare empty frame, which has no
key for the requested symbol at all. -/
theorem retrieve_missing_price_key :
    "GOOG" ∉ (retrieveData envR2 ["GOOG"] "0" "1").1.columns := by
  decide

/-- **C10, amended.** For every requested symbol list and successful
query: the news mapping is keyed exactly by the requested symbols (first
occurrences, in order; a symbol with no data keeps its empty list); every
result row whose symbol tag is missing or not requested is discarded from
the accumulation of both outputs; and the price table is keyed by the
requested symbols except when no price row was accumulated, in which case
it is the empty frame with no columns. -/
theorem retrieve_keyed_by_requested :
    ∀ (env : REnv) (symbols : List String) (a b : String) (tables : List QTable),
      env.queryRes symbols a b = .ok tables →
      (retrieveData env symbols a b).2.map Prod.fst = dedupFirst symbols ∧
      retrieveAcc symbols tables =
        ((tableRows tables).filter (rowMatches symbols)).foldl
          (processRow symbols) (initAcc symbols) ∧
      ((retrieveData env symbols a b).1.columns = dedupFirst symbols ∨
        (retrieveData env symbols a b).1 = ⟨[], [], []⟩) := by
  intro env symbols a b tables h
  have hr : retrieveData env symbols a b =
      (buildPriceTable (retrieveAcc symbols tables).1,
        (retrieveAcc symbols tables).2) := by
    unfold retrieveData
    rw [h]
  refine ⟨?_, ?_, ?_⟩
  · rw [hr]
    exact (retrieveAcc_keys symbols tables).2
  · unfold retrieveAcc
    exact foldl_skip symbols (tableRows tables) (initAcc symbols)
  · rw [hr]
    dsimp only
    unfold buildPriceTable
    split
    · exact Or.inr rfl
    · exact Or.inl (retrieveAcc_keys symbols tables).1

/-- Witness for C10 (amended): with only a `"GOOG"` news row present, the
news mapping is keyed by `"GOOG"` and the price side falls in one of the
two allowed shapes. -/
theorem retrieve_keyed_by_requested_witness :
    (retrieveData envR2 ["GOOG"] "0" "1").2.map Prod.fst = ["GOOG"] ∧
    ((retrieveData envR2 ["GOOG"] "0" "1").1.columns = ["GOOG"] ∨
      (retrieveData envR2 ["GOOG"] "0" "1").1 = ⟨[], [], []⟩) := by
  have h := retrieve_keyed_by_requested envR2 ["GOOG"] "0" "1" [⟨[recG]⟩] rfl
  refine ⟨h.1.trans (by decide), ?_⟩
  rcases h.2.2 with h2 | h2
  · exact Or.inl (h2.trans (by decide))
  · exact Or.inr h2

/-! ### Ingestion lemmas -/

theorem matching_append (store pts : List Point) (s m : String) (a b : Int) :
    matching (store ++ pts) s m a b =
      matching store s m a b ++ matching pts s m a b := by
  unfold matching
  simp [List.filter_append]

theorem matching_nil_of_ne (pts : List Point) (s m : String) (a b : Int)
    (h : ∀ p ∈ pts, p.measurement ≠ m) : matching pts s m a b = [] := by
  unfold matching
  rw [List.filter_eq_nil]
  intro p hp
  simp [h p hp]

theorem stockPoints_append (l₁ l₂ : List Point) :
    stockPoints (l₁ ++ l₂) = stockPoints l₁ ++ stockPoints l₂ := by
  unfold stockPoints
  simp [List.filter_append]

theorem stockPoints_nil_of_news (pts : List Point)
    (h : ∀ p ∈ pts, p.measurement = "market_news") : stockPoints pts = [] := by
  unfold stockPoints
  rw [List.filter_eq_nil]
  intro p hp
  rw [h p hp]
  decide

theorem stockPhase_store (env : Env) (store : List Point) (s : String) (a b : Int) :
    ∃ extra, (stockPhase env store s a b).2.1 = store ++ extra ∧
      ∀ p ∈ extra, p.measurement = "stock_data" := by
  unfold stockPhase
  split
  · exact ⟨[], by simp, by simp⟩
  · unfold ingestStockData
    cases env.fetchBars s a b with
    | error e => exact ⟨[], by simp, by simp⟩
    | ok bars =>
      cases bars with
      | nil => exact ⟨[], by simp, by simp⟩
      | cons x xs =>
        dsimp only
        split
        · refine ⟨(x :: xs).map (barToPoint s), rfl, ?_⟩
          intro p hp
          rw [List.mem_map] at hp
          obtain ⟨bar, _, hbe⟩ := hp
          rw [← hbe]
          rfl
        · exact ⟨[], by simp, by simp⟩

theorem newsPhase_store (env : Env) (store : List Point) (s : String) (a b : Int) :
    ∃ extra, (newsPhase env store s a b).2.1 = store ++ extra ∧
      ∀ p ∈ extra, p.measurement = "market_news" := by
  unfold newsPhase
  split
  · exact ⟨[], by simp, by simp⟩
  · unfold ingestNewsData
    split
    · exact ⟨[], by simp, by simp⟩
    · cases env.fetchNews s a b with
      | error e => exact ⟨[], by simp, by simp⟩
      | ok items =>
        cases items with
        | nil => exact ⟨[], by simp, by simp⟩
        | cons n ns =>
          dsimp only
          split
          · refine ⟨(n :: ns).map (newsToPoint s), rfl, ?_⟩
            intro p hp
            rw [List.mem_map] at hp
            obtain ⟨it, _, hie⟩ := hp
            rw [← hie]
            rfl
          · exact ⟨[], by simp, by simp⟩

theorem checkDataExists_truthful (env : Env) (hT : TruthfulExists env)
    (store : List Point) (s : String) (a b : Int) (m : String) :
    checkDataExists env store s a b m = !(matching store s m a b).isEmpty := by
  unfold checkDataExists
  rw [hT]
  cases hm : matching store s m a b with
  | nil => rfl
  | cons p ps =>
    simp only [List.isEmpty_cons, Bool.not_false, List.length_cons]
    rw [decide_eq_true_eq]
    exact_mod_cast Nat.succ_pos ps.length

theorem envT_truthful : TruthfulExists envT := fun _ _ _ _ _ => rfl

theorem envT_barsInRange : BarsInRange envT := by
  intro s a b bars h
  simp only [envT] at h
  split at h
  case isTrue hab =>
    injection h with h'
    subst h'
    intro bar hm
    simp at hm
    subst hm
    exact ⟨le_refl a, hab⟩
  case isFalse hab =>
    injection h with h'
    subst h'
    intro bar hm
    simp at hm

/-- A store whose stock-data points for the requested range already match
the outcome of one stock phase (plus any news appends) is left unchanged
by a second stock phase, given a truthful existence oracle and a
range-honouring quote provider. -/
theorem stockPhase_eq (env : Env) (st : List Point) (s : String) (a b : Int) :
    stockPhase env st s a b =
      if checkDataExists env st s a b "stock_data" then (true, st, [])
      else ingestStockData env st s a b := rfl

theorem stockPhase_stable (env : Env) (store : List Point) (s : String) (a b : Int)
    (hT : TruthfulExists env) (hB : BarsInRange env)
    (nE : List Point) (hnE : ∀ p ∈ nE, p.measurement = "market_news") :
    (stockPhase env ((stockPhase env store s a b).2.1 ++ nE) s a b).2.1 =
      (stockPhase env store s a b).2.1 ++ nE := by
  cases hck : checkDataExists env ((stockPhase env store s a b).2.1 ++ nE) s a b
      "stock_data" with
  | true =>
    rw [stockPhase_eq env ((stockPhase env store s a b).2.1 ++ nE) s a b, hck]
    rfl
  | false =>
    have hmat : matching ((stockPhase env store s a b).2.1 ++ nE) s "stock_data" a b
        = [] := by
      rw [checkDataExists_truthful env hT] at hck
      simpa using hck
    rw [matching_append] at hmat
    obtain ⟨h1, _⟩ := List.append_eq_nil.mp hmat
    obtain ⟨sE, hsE, hsm⟩ := stockPhase_store env store s a b
    rw [hsE, matching_append] at h1
    obtain ⟨hstore, hsE0⟩ := List.append_eq_nil.mp h1
    have hck1 : checkDataExists env store s a b "stock_data" = false := by
      rw [checkDataExists_truthful env hT, hstore]
      rfl
    have hph : (stockPhase env store s a b).2.1 =
        (ingestStockData env store s a b).2.1 := by
      rw [stockPhase_eq env store s a b, hck1]
      rfl
    rw [stockPhase_eq env ((stockPhase env store s a b).2.1 ++ nE) s a b, hck]
    simp only [Bool.false_eq_true, if_false]
    cases hf : env.fetchBars s a b with
    | error e => simp [ingestStockData, hf]
    | ok bars =>
      cases bars with
      | nil => simp [ingestStockData, hf]
      | cons x xs =>
        cases hw : env.writeStockOk with
        | false => simp [ingestStockData, hf, hw]
        | true =>
          exfalso
          have hi : (ingestStockData env store s a b).2.1 =
              store ++ (x :: xs).map (barToPoint s) := by
            simp [ingestStockData, hf, hw]
          have hpts : store ++ (x :: xs).map (barToPoint s) = store ++ sE := by
            rw [← hi, ← hph, hsE]
          have hpe : (x :: xs).map (barToPoint s) = sE :=
            List.append_cancel_left hpts
          have hbx := hB s a b (x :: xs) hf x (by simp)
          have hmemP : barToPoint s x ∈
              matching ((x :: xs).map (barToPoint s)) s "stock_data" a b := by
            unfold matching
            rw [List.mem_filter]
            refine ⟨List.mem_map_of_mem _ (by simp), ?_⟩
            simp [barToPoint, hbx.1, hbx.2]
          rw [hpe, hsE0] at hmemP
          exact absurd hmemP (List.not_mem_nil _)

/-- **C1.** If the existence check reports data present for a measurement,
`ingest_data` performs no fetch and no write for that measurement and
treats that sub-flow as success (stock: success flag true, empty stock
trace, PriceBars unchanged; news: the phase returns success with the store
untouched); and running `ingest_data` twice over the same range — with the
store truthfully reporting existence and the provider honouring the
range — leaves the set of PriceBars of the second run identical to the
first run's, so no duplicate PriceBars are written. -/
theorem ingest_skip_and_idempotent :
    ∀ (env : Env) (store : List Point) (symbol : String) (a b : Int),
      (∀ r, ingestDataFull env store symbol (.dt a) (.dt b) = .ok r →
        checkDataExists env store symbol a b "stock_data" = true →
        r.stockSuccess = true ∧ r.stockTrace = [] ∧
        stockPoints r.store = stockPoints store) ∧
      (checkDataExists env store symbol a b "market_news" = true →
        newsPhase env store symbol a b = (true, store, [])) ∧
      (TruthfulExists env → BarsInRange env →
        ∀ r₁ r₂, ingestDataFull env store symbol (.dt a) (.dt b) = .ok r₁ →
          ingestDataFull env r₁.store symbol (.dt a) (.dt b) = .ok r₂ →
          stockPoints r₂.store = stockPoints r₁.store) := by
  intro env store symbol a b
  refine ⟨?_, ?_, ?_⟩
  · intro r hr hck
    have hr' : r = ⟨(stockPhase env store symbol a b).1,
        (newsPhase env (stockPhase env store symbol a b).2.1 symbol a b).1,
        (newsPhase env (stockPhase env store symbol a b).2.1 symbol a b).2.1,
        (stockPhase env store symbol a b).2.2,
        (newsPhase env (stockPhase env store symbol a b).2.1 symbol a b).2.2⟩ := by
      unfold ingestDataFull normalizeDate at hr
      cases hr
      rfl
    subst hr'
    have hph : stockPhase env store symbol a b = (true, store, []) := by
      simp [stockPhase, hck]
    rw [hph]
    dsimp only
    refine ⟨rfl, rfl, ?_⟩
    obtain ⟨nE, hnE, hnm⟩ := newsPhase_store env store symbol a b
    rw [hnE, stockPoints_append, stockPoints_nil_of_news nE hnm, List.append_nil]
  · intro hck
    simp [newsPhase, hck]
  · intro hT hB r₁ r₂ h₁ h₂
    have e₁ : r₁.store =
        (newsPhase env (stockPhase env store symbol a b).2.1 symbol a b).2.1 := by
      unfold ingestDataFull normalizeDate at h₁
      cases h₁
      rfl
    have e₂ : r₂.store =
        (newsPhase env (stockPhase env r₁.store symbol a b).2.1 symbol a b).2.1 := by
      unfold ingestDataFull normalizeDate at h₂
      cases h₂
      rfl
    obtain ⟨nE₁, hn₁, hm₁⟩ :=
      newsPhase_store env (stockPhase env store symbol a b).2.1 symbol a b
    obtain ⟨nE₂, hn₂, hm₂⟩ :=
      newsPhase_store env (stockPhase env r₁.store symbol a b).2.1 symbol a b
    have hr1 : r₁.store = (stockPhase env store symbol a b).2.1 ++ nE₁ := by
      rw [e₁, hn₁]
    have hstab := stockPhase_stable env store symbol a b hT hB nE₁ hm₁
    have step1 : stockPoints r₂.store =
        stockPoints ((stockPhase env r₁.store symbol a b).2.1) := by
      rw [e₂, hn₂, stockPoints_append, stockPoints_nil_of_news nE₂ hm₂,
        List.append_nil]
    rw [step1, hr1, hstab]

/-- Witness for C1: with the truthful environment `envT`, a run against a
store already holding the bar's point skips the stock sub-flow (success,
empty trace, PriceBars unchanged), and a second run after a first run from
the empty store adds no PriceBars. -/
theorem ingest_skip_and_idempotent_witness :
    (resT2.stockSuccess = true ∧ resT2.stockTrace = [] ∧
      stockPoints resT2.store = stockPoints [ptT]) ∧
    stockPoints resT2.store = stockPoints resT1.store := by
  constructor
  · exact (ingest_skip_and_idempotent envT [ptT] "AAPL" 0 10).1 resT2
      (by decide) (by decide)
  · exact (ingest_skip_and_idempotent envT [] "AAPL" 0 10).2.2 envT_truthful
      envT_barsInRange resT1 resT2 (by decide) (by decide)

theorem checkDataExists_congr (env₁ env₂ : Env) (m : String)
    (h : ∀ u x y pts, env₁.existsQ u m x y pts = env₂.existsQ u m x y pts)
    (st₁ st₂ : List Point) (s : String) (a b : Int)
    (hm : matching st₁ s m a b = matching st₂ s m a b) :
    checkDataExists env₁ st₁ s a b m = checkDataExists env₂ st₂ s a b m := by
  unfold checkDataExists
  rw [hm, h]

theorem ingestNewsData_view (env₁ env₂ : Env) (st₁ st₂ : List Point)
    (s : String) (a b : Int)
    (hfn : env₁.fetchNews = env₂.fetchNews)
    (hw : env₁.writeNewsOk = env₂.writeNewsOk)
    (hh : env₁.hasFinnhub = env₂.hasFinnhub) :
    (ingestNewsData env₁ st₁ s a b).1 = (ingestNewsData env₂ st₂ s a b).1 ∧
    (ingestNewsData env₁ st₁ s a b).2.2 = (ingestNewsData env₂ st₂ s a b).2.2 := by
  unfold ingestNewsData
  rw [hfn, hw, hh]
  cases hfin : env₂.hasFinnhub with
  | false => exact ⟨rfl, rfl⟩
  | true =>
    simp only [hfin, Bool.not_true, Bool.false_eq_true, if_false]
    cases env₂.fetchNews s a b with
    | error e => exact ⟨rfl, rfl⟩
    | ok items =>
      cases items with
      | nil => exact ⟨rfl, rfl⟩
      | cons n ns =>
        dsimp only
        cases env₂.writeNewsOk with
        | false => exact ⟨rfl, rfl⟩
        | true => exact ⟨rfl, rfl⟩

theorem newsPhase_view (env₁ env₂ : Env) (st₁ st₂ : List Point)
    (s : String) (a b : Int)
    (hfn : env₁.fetchNews = env₂.fetchNews)
    (hw : env₁.writeNewsOk = env₂.writeNewsOk)
    (hh : env₁.hasFinnhub = env₂.hasFinnhub)
    (hck : checkDataExists env₁ st₁ s a b "market_news" =
      checkDataExists env₂ st₂ s a b "market_news") :
    (newsPhase env₁ st₁ s a b).1 = (newsPhase env₂ st₂ s a b).1 ∧
    (newsPhase env₁ st₁ s a b).2.2 = (newsPhase env₂ st₂ s a b).2.2 := by
  unfold newsPhase
  rw [hck]
  cases hcv : checkDataExists env₂ st₂ s a b "market_news" with
  | true => exact ⟨rfl, rfl⟩
  | false =>
    simp only [Bool.false_eq_true, if_false]
    exact ingestNewsData_view env₁ env₂ st₁ st₂ s a b hfn hw hh

theorem stockPhase_congr (env₁ env₂ : Env) (store : List Point)
    (s : String) (a b : Int)
    (hfb : env₁.fetchBars = env₂.fetchBars)
    (hw : env₁.writeStockOk = env₂.writeStockOk)
    (hq : ∀ u x y pts, env₁.existsQ u "stock_data" x y pts =
      env₂.existsQ u "stock_data" x y pts) :
    stockPhase env₁ store s a b = stockPhase env₂ store s a b := by
  unfold stockPhase
  rw [checkDataExists_congr env₁ env₂ "stock_data" hq store store s a b rfl]
  have hi : ingestStockData env₁ store s a b = ingestStockData env₂ store s a b := by
    unfold ingestStockData
    rw [hfb, hw]
  rw [hi]

/-- **C3.** `ingest_data` runs the price and news sub-flows independently:
the news sub-flow's success and trace depend only on the news
collaborators (its existence query sees only `"market_news"` points, which
the stock sub-flow never writes), the stock sub-flow's outcome depends
only on the stock collaborators, and the overall return value is the
conjunction of the two sub-flow results. -/
theorem subflows_independent :
    ∀ (env₁ env₂ : Env) (store : List Point) (symbol : String) (sd ed : DateInput),
      ((env₁.fetchNews = env₂.fetchNews ∧ env₁.writeNewsOk = env₂.writeNewsOk ∧
          env₁.hasFinnhub = env₂.hasFinnhub ∧
          (∀ u x y pts, env₁.existsQ u "market_news" x y pts =
            env₂.existsQ u "market_news" x y pts)) →
        newsView (ingestDataFull env₁ store symbol sd ed) =
          newsView (ingestDataFull env₂ store symbol sd ed)) ∧
      ((env₁.fetchBars = env₂.fetchBars ∧ env₁.writeStockOk = env₂.writeStockOk ∧
          (∀ u x y pts, env₁.existsQ u "stock_data" x y pts =
            env₂.existsQ u "stock_data" x y pts)) →
        stockView (ingestDataFull env₁ store symbol sd ed) =
          stockView (ingestDataFull env₂ store symbol sd ed)) ∧
      (∀ r, ingestDataFull env₁ store symbol sd ed = .ok r →
        ingestData env₁ store symbol sd ed =
          .ok (r.stockSuccess && r.newsSuccess, r.store,
            r.stockTrace ++ r.newsTrace)) := by
  intro env₁ env₂ store symbol sd ed
  refine ⟨?_, ?_, ?_⟩
  · rintro ⟨hfn, hw, hh, hq⟩
    unfold ingestDataFull
    cases hsd : normalizeDate sd with
    | none => rfl
    | some a' =>
      cases hed : normalizeDate ed with
      | none => rfl
      | some b' =>
        dsimp only
        obtain ⟨sE₁, hs₁, hm₁⟩ := stockPhase_store env₁ store symbol a' b'
        obtain ⟨sE₂, hs₂, hm₂⟩ := stockPhase_store env₂ store symbol a' b'
        have hne : ∀ (sE : List Point), (∀ p ∈ sE, p.measurement = "stock_data") →
            matching (store ++ sE) symbol "market_news" a' b' =
              matching store symbol "market_news" a' b' := by
          intro sE hsE
          rw [matching_append,
            matching_nil_of_ne sE symbol "market_news" a' b'
              (fun p hp => by rw [hsE p hp]; decide),
            List.append_nil]
        have hmm : matching (stockPhase env₁ store symbol a' b').2.1
              symbol "market_news" a' b'
            = matching (stockPhase env₂ store symbol a' b').2.1
              symbol "market_news" a' b' := by
          rw [hs₁, hs₂, hne sE₁ hm₁, hne sE₂ hm₂]
        have hck := checkDataExists_congr env₁ env₂ "market_news" hq
          (stockPhase env₁ store symbol a' b').2.1
          (stockPhase env₂ store symbol a' b').2.1 symbol a' b' hmm
        obtain ⟨hv1, hv2⟩ := newsPhase_view env₁ env₂
          (stockPhase env₁ store symbol a' b').2.1
          (stockPhase env₂ store symbol a' b').2.1 symbol a' b' hfn hw hh hck
        unfold newsView
        dsimp only [Except.map]
        rw [hv1, hv2]
  · rintro ⟨hfb, hw, hq⟩
    unfold ingestDataFull
    cases hsd : normalizeDate sd with
    | none => rfl
    | some a' =>
      cases hed : normalizeDate ed with
      | none => rfl
      | some b' =>
        dsimp only
        unfold stockView
        dsimp only [Except.map]
        rw [stockPhase_congr env₁ env₂ store symbol a' b' hfb hw hq]
  · intro r hr
    unfold ingestData
    rw [hr]
    rfl

/-- Witness for C3: replacing the quote provider by a failing one (and
failing stock writes) leaves the news sub-flow's outcome unchanged, and
the caller-visible result of a run is the conjunction-shaped triple of its
sub-flow results. -/
theorem subflows_independent_witness :
    newsView (ingestDataFull envT [] "AAPL" (.dt 0) (.dt 10)) =
      newsView (ingestDataFull envTbad [] "AAPL" (.dt 0) (.dt 10)) ∧
    ingestData envT [] "AAPL" (.dt 0) (.dt 10) =
      .ok (resT1.stockSuccess && resT1.newsSuccess, resT1.store,
        resT1.stockTrace ++ resT1.newsTrace) := by
  constructor
  · exact (subflows_independent envT envTbad [] "AAPL" (.dt 0) (.dt 10)).1
      ⟨rfl, rfl, rfl, fun u x y pts => rfl⟩
  · exact (subflows_independent envT envTbad [] "AAPL" (.dt 0) (.dt 10)).2.2
      resT1 (by decide)

end StockIngest
